import Mathlib

/-!
Shallow embedding of the section-to-binary assembly loop of
`llvm-objcopy.cpp` (`ObjectCopyBase::CopyTo`, specialised by
`ObjectCopyBinary::PrintSection` / `ObjectCopyBinary::FillGap`), together
with theorems settling the specification's claims about it.

The loop consumes an ordered list of sections, each with a name, a start
address (`uint64_t`), byte contents and a BSS flag, and writes a flat
binary image: BSS/empty sections are skipped, gaps up to `1 << 16` bytes
between consecutive emitted sections are filled with `0x00`, larger gaps
abort, and out-of-order sections are skipped with a diagnostic.
-/

namespace Objcopy

/-- A section as `CopyTo` reads it from the object file: `SectionName`,
`SectionAddress` (a `uint64_t`, hence a natural below `2 ^ 64`),
`SectionContents` (a byte string, modelled as a list of byte values) and
the `BSS` flag (`si->isBSS()`). -/
structure ObjSection where
  name : String
  address : Nat
  contents : List Nat
  bss : Bool
deriving DecidableEq, Repr

/-- The loop state of `CopyTo`: `FillNextGap`, `LastAddress`,
`LastSectionName`. -/
structure CopyState where
  fillNextGap : Bool
  lastAddress : Nat
  lastSectionName : String
deriving DecidableEq, Repr

/-- The observable outcome of a `CopyTo` run: the bytes written to the
output stream, the diagnostics printed to `errs()`, whether `Out.keep()`
was reached, and the loop state when the run stopped. -/
structure CopyResult where
  output : List Nat
  diags : List String
  kept : Bool
  final : CopyState
deriving DecidableEq, Repr

/-- The out-of-order diagnostic printed at the `SectionAddress < LastAddress`
branch; it interpolates `LastSectionName` and `SectionName`. -/
def invalidOrderMsg (last cur : String) : String :=
  "Trying to fill gaps between sections " ++ last ++ " and " ++ cur
    ++ " in invalid order\n"

/-- The diagnostic printed when the gap size limit is exceeded.  It is a
fixed string: the source prints neither the section names nor the gap
size on this path. -/
def gapTooLargeMsg : String := "Gap between sections is too large\n"

/-- `ObjectCopyBinary::FillGap`: write `Size` copies of `Value`. -/
def FillGap (value : Nat) (size : Nat) : List Nat :=
  List.replicate size value

/-- `ObjectCopyBinary::PrintSection`: write the section contents byte by
byte, in order. -/
def PrintSection (contents : List Nat) : List Nat := contents

/-- The filter at the top of the loop body:
`if (BSS || SectionContents.size() == 0) continue;`. -/
def skipSec (s : ObjSection) : Bool :=
  s.bss || s.contents.length == 0

/-- The state update at the bottom of the loop body, guarded by
`mFillGaps`.  `LastAddress = SectionAddress + SectionContents.size()` is
`uint64_t` arithmetic, hence reduced modulo `2 ^ 64`. -/
def nextState (fillGaps : Bool) (s : ObjSection) (st : CopyState) : CopyState :=
  if fillGaps then
    { fillNextGap := true
      lastAddress := (s.address + s.contents.length) % 2 ^ 64
      lastSectionName := s.name }
  else st

/-- Prepend bytes written before the rest of the run's output. -/
def CopyResult.withOutput (bs : List Nat) (r : CopyResult) : CopyResult :=
  { r with output := bs ++ r.output }

/-- Prepend a diagnostic printed before the rest of the run's diagnostics. -/
def CopyResult.withDiag (d : String) (r : CopyResult) : CopyResult :=
  { r with diags := d :: r.diags }

/-- The section loop of `ObjectCopyBase::CopyTo`, one constructor case per
iteration.  Reaching the end of the list is the fall-through to
`Out.keep()` (`kept := true`); the oversized-gap branch is the early
`return`, which never reaches `Out.keep()` (`kept := false`). -/
def copyLoop (fillGaps : Bool) : List ObjSection → CopyState → CopyResult
  | [], st => { output := [], diags := [], kept := true, final := st }
  | s :: rest, st =>
    if skipSec s then
      copyLoop fillGaps rest st
    else
      let emit : CopyResult :=
        (copyLoop fillGaps rest (nextState fillGaps s st)).withOutput
          (PrintSection s.contents)
      if st.fillNextGap then
        if s.address < st.lastAddress then
          (copyLoop fillGaps rest st).withDiag
            (invalidOrderMsg st.lastSectionName s.name)
        else if s.address = st.lastAddress then
          emit
        else if s.address - st.lastAddress > 1 <<< 16 then
          { output := [], diags := [gapTooLargeMsg], kept := false, final := st }
        else
          emit.withOutput (FillGap 0x00 (s.address - st.lastAddress))
      else
        emit

/-- The initial loop state of `CopyTo`. -/
def initState : CopyState :=
  { fillNextGap := false, lastAddress := 0, lastSectionName := "" }

/-- A full `CopyTo` run of the binary variant (`ObjectCopyBinary` sets
`mFillGaps = true`); the spec calls this `Assemble`. -/
def CopyTo (secs : List ObjSection) : CopyResult :=
  copyLoop true secs initState

/-- The sections that survive the BSS/empty filter, i.e. the emitted
candidates in input order. -/
def emitted (secs : List ObjSection) : List ObjSection :=
  secs.filter (fun s => !skipSec s)

/-- Modelled from LLVM's `tool_output_file` semantics, which `CopyTo`
relies on for its output handle: the destructor removes the output file
unless `keep()` was called, so the written bytes persist exactly when the
run reached `Out.keep()`. -/
def filePersists (r : CopyResult) : Bool := r.kept

/-- `uint64_t` addition `SectionAddress + SectionContents.size()` does not
wrap for this section. -/
def noOverflow (s : ObjSection) : Prop :=
  s.address + s.contents.length < 2 ^ 64

instance (s : ObjSection) : Decidable (noOverflow s) :=
  inferInstanceAs (Decidable (s.address + s.contents.length < 2 ^ 64))

/-- Adjacent emitted sections leave a representable gap: the next section
starts no earlier than the previous one ends, and at most `1 <<< 16`
bytes later. -/
def gapOk (a b : ObjSection) : Prop :=
  a.address + a.contents.length ≤ b.address ∧
    b.address - (a.address + a.contents.length) ≤ 1 <<< 16

instance (a b : ObjSection) : Decidable (gapOk a b) :=
  inferInstanceAs (Decidable (a.address + a.contents.length ≤ b.address ∧
    b.address - (a.address + a.contents.length) ≤ 1 <<< 16))

/-- Adjacent emitted sections are contiguous: the next starts exactly
where the previous ends. -/
def contiguous (a b : ObjSection) : Prop :=
  b.address = a.address + a.contents.length

instance (a b : ObjSection) : Decidable (contiguous a b) :=
  inferInstanceAs (Decidable (b.address = a.address + a.contents.length))

/-- The expected image for a run that starts at address `base` with a gap
fill pending: each section is preceded by the zero fill from the running
end address up to its start. -/
def layoutFrom (base : Nat) : List ObjSection → List Nat
  | [] => []
  | a :: rest =>
    List.replicate (a.address - base) 0 ++ a.contents
      ++ layoutFrom (a.address + a.contents.length) rest

/-- The expected image of a complete run: the first emitted section is
written with no preceding fill, every later one after its gap fill. -/
def layout : List ObjSection → List Nat
  | [] => []
  | a :: rest => a.contents ++ layoutFrom (a.address + a.contents.length) rest

/-- The `.text` section of the spec's scenarios: start `0x1000`, 16
content bytes. -/
def textSec : ObjSection :=
  { name := ".text", address := 0x1000, contents := List.replicate 16 0xAA, bss := false }

/-- The `.data` section of the spec's oversized-gap scenario: start
`0x20000`, 8 content bytes; the gap after `textSec` is
`0x20000 - 0x1010 = 0x1EFF0 > 65536`. -/
def dataSec : ObjSection :=
  { name := ".data", address := 0x20000, contents := List.replicate 8 0xBB, bss := false }

/-- The spec's oversized-gap scenario. -/
def gapScenario : List ObjSection := [textSec, dataSec]

/-- A `.data` section contiguous with `textSec`: it starts at `0x1010`,
exactly where `textSec` ends. -/
def dataSecAdj : ObjSection :=
  { name := ".data", address := 0x1010, contents := List.replicate 8 0xBB, bss := false }

/-- A section leaving an 8-byte gap after `dataSecAdj` (which ends at
`0x1018`). -/
def roSec : ObjSection :=
  { name := ".rodata", address := 0x1020, contents := List.replicate 8 0xCC, bss := false }

/-- An uninitialized (BSS) section sitting between emitted neighbours. -/
def bssSec : ObjSection :=
  { name := ".bss", address := 0x5000, contents := [], bss := true }

/-- An uninitialized section whose start address lies before the end of
the previously emitted section. -/
def bssLow : ObjSection :=
  { name := ".bss2", address := 0x0, contents := [], bss := true }

/-- An out-of-order section: it starts at `0x800`, before `textSec`
ends. -/
def ooSec : ObjSection :=
  { name := ".oo", address := 0x800, contents := [0x33], bss := false }

/-- The loop state right after emitting `textSec`. -/
def stAfterText : CopyState :=
  { fillNextGap := true, lastAddress := 0x1010, lastSectionName := ".text" }

/-- A second oversized-gap scenario with different section names and a
different gap size than `gapScenario`. -/
def alphaSec : ObjSection :=
  { name := ".alpha", address := 0x2000, contents := List.replicate 4 0x11, bss := false }

/-- See `alphaSec`: the gap `0x200000 - 0x2004 = 0x1FDFFC` differs from
`gapScenario`'s. -/
def betaSec : ObjSection :=
  { name := ".beta", address := 0x200000, contents := List.replicate 4 0x22, bss := false }

/-- The second oversized-gap scenario. -/
def gapScenarioB : List ObjSection := [alphaSec, betaSec]

lemma shift16 : (1 : Nat) <<< 16 = 65536 := rfl

lemma copyLoop_nil (fg : Bool) (st : CopyState) :
    copyLoop fg [] st = { output := [], diags := [], kept := true, final := st } :=
  rfl

lemma copyLoop_skip {s : ObjSection} (h : skipSec s = true) (fg : Bool)
    (rest : List ObjSection) (st : CopyState) :
    copyLoop fg (s :: rest) st = copyLoop fg rest st := by
  simp [copyLoop, h]

lemma copyLoop_noFill {s : ObjSection} {st : CopyState} (hskip : skipSec s = false)
    (hfill : st.fillNextGap = false) (fg : Bool) (rest : List ObjSection) :
    copyLoop fg (s :: rest) st =
      (copyLoop fg rest (nextState fg s st)).withOutput (PrintSection s.contents) := by
  simp [copyLoop, hskip, hfill]

lemma copyLoop_oo {s : ObjSection} {st : CopyState} (hskip : skipSec s = false)
    (hfill : st.fillNextGap = true) (hlt : s.address < st.lastAddress)
    (fg : Bool) (rest : List ObjSection) :
    copyLoop fg (s :: rest) st =
      (copyLoop fg rest st).withDiag (invalidOrderMsg st.lastSectionName s.name) := by
  simp [copyLoop, hskip, hfill, hlt]

lemma copyLoop_eqAddr {s : ObjSection} {st : CopyState} (hskip : skipSec s = false)
    (hfill : st.fillNextGap = true) (heq : s.address = st.lastAddress)
    (fg : Bool) (rest : List ObjSection) :
    copyLoop fg (s :: rest) st =
      (copyLoop fg rest (nextState fg s st)).withOutput (PrintSection s.contents) := by
  have hnlt : ¬ s.address < st.lastAddress := by omega
  simp [copyLoop, hskip, hfill, hnlt, heq]

lemma copyLoop_gapFill {s : ObjSection} {st : CopyState} (hskip : skipSec s = false)
    (hfill : st.fillNextGap = true) (hgt : st.lastAddress < s.address)
    (hle : s.address - st.lastAddress ≤ 1 <<< 16) (fg : Bool) (rest : List ObjSection) :
    copyLoop fg (s :: rest) st =
      ((copyLoop fg rest (nextState fg s st)).withOutput
          (PrintSection s.contents)).withOutput
        (FillGap 0x00 (s.address - st.lastAddress)) := by
  have hle' : s.address - st.lastAddress ≤ 65536 := by rw [shift16] at hle; exact hle
  have hnlt : ¬ s.address < st.lastAddress := by omega
  have hne : ¬ s.address = st.lastAddress := by omega
  have hnbig : ¬ s.address - st.lastAddress > 65536 := by omega
  simp [copyLoop, hskip, hfill, hnlt, hne, hnbig]

lemma copyLoop_abort {s : ObjSection} {st : CopyState} (hskip : skipSec s = false)
    (hfill : st.fillNextGap = true) (hgt : st.lastAddress < s.address)
    (hbig : 1 <<< 16 < s.address - st.lastAddress) (fg : Bool) (rest : List ObjSection) :
    copyLoop fg (s :: rest) st =
      { output := [], diags := [gapTooLargeMsg], kept := false, final := st } := by
  have hbig' : 65536 < s.address - st.lastAddress := by rw [shift16] at hbig; exact hbig
  have hnlt : ¬ s.address < st.lastAddress := by omega
  have hne : ¬ s.address = st.lastAddress := by omega
  simp [copyLoop, hskip, hfill, hnlt, hne, hbig']

lemma emitted_cons_skip {s : ObjSection} (h : skipSec s = true) (l : List ObjSection) :
    emitted (s :: l) = emitted l := by
  simp [emitted, h]

lemma emitted_cons_emit {s : ObjSection} (h : skipSec s = false) (l : List ObjSection) :
    emitted (s :: l) = s :: emitted l := by
  simp [emitted, h]

@[simp] lemma withOutput_output (bs : List Nat) (r : CopyResult) :
    (r.withOutput bs).output = bs ++ r.output := rfl

@[simp] lemma withOutput_diags (bs : List Nat) (r : CopyResult) :
    (r.withOutput bs).diags = r.diags := rfl

@[simp] lemma withOutput_kept (bs : List Nat) (r : CopyResult) :
    (r.withOutput bs).kept = r.kept := rfl

@[simp] lemma withOutput_final (bs : List Nat) (r : CopyResult) :
    (r.withOutput bs).final = r.final := rfl

@[simp] lemma withDiag_output (d : String) (r : CopyResult) :
    (r.withDiag d).output = r.output := rfl

@[simp] lemma withDiag_diags (d : String) (r : CopyResult) :
    (r.withDiag d).diags = d :: r.diags := rfl

@[simp] lemma withDiag_kept (d : String) (r : CopyResult) :
    (r.withDiag d).kept = r.kept := rfl

@[simp] lemma withDiag_final (d : String) (r : CopyResult) :
    (r.withDiag d).final = r.final := rfl

lemma chain'_pair {α : Type} {R : α → α → Prop} {a b : α} (h : R a b) :
    List.Chain' R [a, b] :=
  List.chain'_cons.mpr ⟨h, List.chain'_singleton b⟩

lemma chain'_triple {α : Type} {R : α → α → Prop} {a b c : α}
    (hab : R a b) (hbc : R b c) : List.Chain' R [a, b, c] :=
  List.chain'_cons.mpr ⟨hab, chain'_pair hbc⟩

lemma nextState_true (s : ObjSection) (st : CopyState) (h : noOverflow s) :
    nextState true s st =
      { fillNextGap := true, lastAddress := s.address + s.contents.length,
        lastSectionName := s.name } := by
  have h' : s.address + s.contents.length < 2 ^ 64 := h
  norm_num at h'
  simp [nextState, Nat.mod_eq_of_lt h']

lemma copyLoop_middle_skip {s : ObjSection} (h : skipSec s = true) (fg : Bool) :
    ∀ (pre post : List ObjSection) (st : CopyState),
      copyLoop fg (pre ++ s :: post) st = copyLoop fg (pre ++ post) st := by
  intro pre
  induction pre with
  | nil =>
    intro post st
    simpa using copyLoop_skip h fg post st
  | cons c pre ih =>
    intro post st
    by_cases hc : skipSec c = true
    · rw [List.cons_append, copyLoop_skip hc, List.cons_append, copyLoop_skip hc, ih]
    · have hc' : skipSec c = false := by simpa using hc
      by_cases hf : st.fillNextGap = true
      · rcases Nat.lt_trichotomy c.address st.lastAddress with hlt | heq | hgt
        · rw [List.cons_append, copyLoop_oo hc' hf hlt,
            List.cons_append, copyLoop_oo hc' hf hlt, ih]
        · rw [List.cons_append, copyLoop_eqAddr hc' hf heq,
            List.cons_append, copyLoop_eqAddr hc' hf heq, ih]
        · by_cases hbig : 1 <<< 16 < c.address - st.lastAddress
          · rw [List.cons_append, copyLoop_abort hc' hf hgt hbig,
              List.cons_append, copyLoop_abort hc' hf hgt hbig]
          · have hle : c.address - st.lastAddress ≤ 1 <<< 16 := le_of_not_lt hbig
            rw [List.cons_append, copyLoop_gapFill hc' hf hgt hle,
              List.cons_append, copyLoop_gapFill hc' hf hgt hle, ih]
      · have hf' : st.fillNextGap = false := by simpa using hf
        rw [List.cons_append, copyLoop_noFill hc' hf',
          List.cons_append, copyLoop_noFill hc' hf', ih]

lemma copyLoop_first :
    ∀ (secs : List ObjSection) (st : CopyState) (a : ObjSection) (es' : List ObjSection),
      st.fillNextGap = false →
      emitted secs = a :: es' →
      ∃ tail : List ObjSection, emitted tail = es' ∧
        copyLoop true secs st =
          (copyLoop true tail (nextState true a st)).withOutput
            (PrintSection a.contents) := by
  intro secs
  induction secs with
  | nil =>
    intro st a es' _ hes
    simp [emitted] at hes
  | cons s rest ih =>
    intro st a es' hfill hes
    by_cases hs : skipSec s = true
    · rw [emitted_cons_skip hs] at hes
      rw [copyLoop_skip hs]
      exact ih st a es' hfill hes
    · have hs' : skipSec s = false := by simpa using hs
      rw [emitted_cons_emit hs'] at hes
      injection hes with h1 h2
      subst h1
      exact ⟨rest, h2, copyLoop_noFill hs' hfill true rest⟩

/-- C4: a section with the uninitialized (BSS) flag set or with empty
contents is skipped entirely by `CopyTo`: it contributes no bytes,
updates neither `LastAddress` nor `LastSectionName`, and the gap
arithmetic between the emitted sections around it is computed as if it
were absent — deleting it from the input leaves the whole run
unchanged. -/
theorem skip_section_transparent (s : ObjSection)
    (h : s.bss = true ∨ s.contents = [])
    (pre post : List ObjSection) :
    CopyTo (pre ++ s :: post) = CopyTo (pre ++ post) := by
  have hs : skipSec s = true := by
    rcases h with h | h <;> simp [skipSec, h]
  exact copyLoop_middle_skip hs true pre post initState

/-- Witness for `skip_section_transparent`: a BSS section between two
emitted sections is invisible to the run. -/
theorem skip_section_transparent_witness :
    (bssSec.bss = true ∨ bssSec.contents = []) ∧
    CopyTo ([textSec] ++ bssSec :: [dataSecAdj]) = CopyTo ([textSec] ++ [dataSecAdj]) :=
  ⟨Or.inl rfl, skip_section_transparent bssSec (Or.inl rfl) [textSec] [dataSecAdj]⟩

/-- C9: an uninitialized or empty section is filtered out before gap
resolution, so it can never trigger the out-of-order diagnostic nor the
oversized-gap abort, regardless of its start address and of the current
loop state. -/
theorem skip_section_never_flagged (s : ObjSection)
    (h : s.bss = true ∨ s.contents = [])
    (fg : Bool) (st : CopyState) (rest : List ObjSection) :
    (copyLoop fg (s :: rest) st).diags = (copyLoop fg rest st).diags ∧
    (copyLoop fg (s :: rest) st).kept = (copyLoop fg rest st).kept := by
  have hs : skipSec s = true := by
    rcases h with h | h <;> simp [skipSec, h]
  rw [copyLoop_skip hs]
  exact ⟨rfl, rfl⟩

/-- Witness for `skip_section_never_flagged`: an empty BSS section whose
start address lies before `LastAddress` produces no diagnostic and no
abort. -/
theorem skip_section_never_flagged_witness :
    (bssLow.bss = true ∨ bssLow.contents = []) ∧
    ((copyLoop true (bssLow :: []) stAfterText).diags =
        (copyLoop true [] stAfterText).diags ∧
      (copyLoop true (bssLow :: []) stAfterText).kept =
        (copyLoop true [] stAfterText).kept) :=
  ⟨Or.inl rfl, skip_section_never_flagged bssLow (Or.inl rfl) true stAfterText []⟩

/-- C5: an emitted-eligible section that starts before the previous
emitted section ended is reported with a diagnostic naming both
sections, is skipped without emitting any bytes, leaves the loop state
(`FillNextGap`, `LastAddress`, `LastSectionName`) untouched, and the run
continues with the remaining sections instead of aborting. -/
theorem out_of_order_section_skipped (st : CopyState) (s : ObjSection)
    (rest : List ObjSection)
    (hfill : st.fillNextGap = true)
    (hskip : skipSec s = false)
    (hlt : s.address < st.lastAddress) :
    copyLoop true (s :: rest) st =
      (copyLoop true rest st).withDiag (invalidOrderMsg st.lastSectionName s.name) :=
  copyLoop_oo hskip hfill hlt true rest

/-- Witness for `out_of_order_section_skipped`: after `.text`, a section
starting at `0x800 < 0x1010` is skipped with the diagnostic and the run
continues. -/
theorem out_of_order_section_skipped_witness :
    (stAfterText.fillNextGap = true ∧ skipSec ooSec = false ∧
      ooSec.address < stAfterText.lastAddress) ∧
    copyLoop true (ooSec :: [dataSecAdj]) stAfterText =
      (copyLoop true [dataSecAdj] stAfterText).withDiag
        (invalidOrderMsg stAfterText.lastSectionName ooSec.name) :=
  ⟨⟨rfl, rfl, by decide⟩,
    out_of_order_section_skipped stAfterText ooSec [dataSecAdj] rfl rfl (by decide)⟩

/-- C10: no padding is ever written before the first emitted section:
`FillNextGap` starts out false, so the output begins exactly with the
first emitted section's contents, whatever its start address. -/
theorem output_starts_with_first_emitted (secs : List ObjSection)
    (a : ObjSection) (es' : List ObjSection)
    (hes : emitted secs = a :: es') :
    ∃ t, (CopyTo secs).output = a.contents ++ t := by
  obtain ⟨tail, -, heq⟩ := copyLoop_first secs initState a es' rfl hes
  refine ⟨(copyLoop true tail (nextState true a initState)).output, ?_⟩
  show (copyLoop true secs initState).output = _
  rw [heq]
  rfl

/-- Witness for `output_starts_with_first_emitted`: with a skipped BSS
section first, the output starts with `.text`'s bytes even though
`.text` sits at `0x1000`. -/
theorem output_starts_with_first_emitted_witness :
    emitted [bssLow, textSec, dataSecAdj] = textSec :: [dataSecAdj] ∧
    ∃ t, (CopyTo [bssLow, textSec, dataSecAdj]).output = textSec.contents ++ t :=
  ⟨by decide,
    output_starts_with_first_emitted [bssLow, textSec, dataSecAdj] textSec [dataSecAdj]
      (by decide)⟩

lemma copyLoop_layoutFrom :
    ∀ (secs : List ObjSection) (st : CopyState),
      st.fillNextGap = true →
      (∀ s ∈ emitted secs, noOverflow s) →
      List.Chain' gapOk (emitted secs) →
      (∀ a ∈ (emitted secs).head?, st.lastAddress ≤ a.address ∧
          a.address - st.lastAddress ≤ 1 <<< 16) →
      (copyLoop true secs st).output = layoutFrom st.lastAddress (emitted secs) ∧
      (copyLoop true secs st).diags = [] ∧
      (copyLoop true secs st).kept = true := by
  intro secs
  induction secs with
  | nil =>
    intro st _ _ _ _
    simp [copyLoop_nil, emitted, layoutFrom]
  | cons s rest ih =>
    intro st hfill hb hchain hhead
    by_cases hs : skipSec s = true
    · rw [emitted_cons_skip hs] at hb hchain hhead
      rw [copyLoop_skip hs, emitted_cons_skip hs]
      exact ih st hfill hb hchain hhead
    · have hs' : skipSec s = false := by simpa using hs
      rw [emitted_cons_emit hs'] at hb hchain hhead
      rw [emitted_cons_emit hs']
      have hnos : noOverflow s := hb s (List.mem_cons_self s _)
      have hh := hhead s rfl
      obtain ⟨hrel, hchain'⟩ := List.chain'_cons'.mp hchain
      have hb' : ∀ t ∈ emitted rest, noOverflow t :=
        fun t ht => hb t (List.mem_cons_of_mem s ht)
      have ihr := ih
        { fillNextGap := true, lastAddress := s.address + s.contents.length,
          lastSectionName := s.name }
        rfl hb' hchain' (fun a ha => hrel a ha)
      rcases eq_or_lt_of_le hh.1 with heq | hgt
      · rw [copyLoop_eqAddr hs' hfill heq.symm, nextState_true s st hnos]
        refine ⟨?_, by simp [ihr.2.1], by simp [ihr.2.2]⟩
        simp only [withOutput_output, PrintSection]
        rw [ihr.1]
        simp [layoutFrom, ← heq]
      · rw [copyLoop_gapFill hs' hfill hgt hh.2, nextState_true s st hnos]
        refine ⟨?_, by simp [ihr.2.1], by simp [ihr.2.2]⟩
        simp only [withOutput_output, PrintSection, FillGap]
        rw [ihr.1]
        simp [layoutFrom, List.append_assoc]

lemma copyLoop_layout :
    ∀ (secs : List ObjSection) (st : CopyState),
      st.fillNextGap = false →
      (∀ s ∈ emitted secs, noOverflow s) →
      List.Chain' gapOk (emitted secs) →
      (copyLoop true secs st).output = layout (emitted secs) ∧
      (copyLoop true secs st).diags = [] ∧
      (copyLoop true secs st).kept = true := by
  intro secs
  induction secs with
  | nil =>
    intro st _ _ _
    simp [copyLoop_nil, emitted, layout]
  | cons s rest ih =>
    intro st hfill hb hchain
    by_cases hs : skipSec s = true
    · rw [emitted_cons_skip hs] at hb hchain
      rw [copyLoop_skip hs, emitted_cons_skip hs]
      exact ih st hfill hb hchain
    · have hs' : skipSec s = false := by simpa using hs
      rw [emitted_cons_emit hs'] at hb hchain
      rw [emitted_cons_emit hs']
      have hnos : noOverflow s := hb s (List.mem_cons_self s _)
      obtain ⟨hrel, hchain'⟩ := List.chain'_cons'.mp hchain
      have hb' : ∀ t ∈ emitted rest, noOverflow t :=
        fun t ht => hb t (List.mem_cons_of_mem s ht)
      have hcomplete := copyLoop_layoutFrom rest
        { fillNextGap := true, lastAddress := s.address + s.contents.length,
          lastSectionName := s.name }
        rfl hb' hchain' (fun a ha => hrel a ha)
      rw [copyLoop_noFill hs' hfill, nextState_true s st hnos]
      refine ⟨?_, by simp [hcomplete.2.1], by simp [hcomplete.2.2]⟩
      simp only [withOutput_output, PrintSection]
      rw [hcomplete.1]
      simp [layout]

lemma layoutFrom_contiguous :
    ∀ (es : List ObjSection) (base : Nat),
      List.Chain' contiguous es →
      (∀ a ∈ es.head?, a.address = base) →
      layoutFrom base es = (es.map (fun s => s.contents)).flatten := by
  intro es
  induction es with
  | nil => intro base _ _; rfl
  | cons a tail ih =>
    intro base hchain hhead
    obtain ⟨hrel, hchain'⟩ := List.chain'_cons'.mp hchain
    have ha : a.address = base := hhead a rfl
    have htail := ih (a.address + a.contents.length) hchain'
      (fun b hb => hrel b hb)
    rw [ha] at htail
    simp [layoutFrom, htail, ha, Nat.sub_self]

lemma layout_contiguous (es : List ObjSection)
    (hchain : List.Chain' contiguous es) :
    layout es = (es.map (fun s => s.contents)).flatten := by
  cases es with
  | nil => rfl
  | cons a tail =>
    obtain ⟨hrel, hchain'⟩ := List.chain'_cons'.mp hchain
    simp [layout,
      layoutFrom_contiguous tail (a.address + a.contents.length) hchain'
        (fun b hb => hrel b hb)]

lemma contiguous_gapOk {a b : ObjSection} (h : contiguous a b) : gapOk a b := by
  unfold contiguous at h
  exact ⟨le_of_eq h.symm, by rw [h]; simp⟩

/-- C1: when the emitted (non-BSS, non-empty) sections are contiguous —
each one starts exactly where the previous one ends — `CopyTo` writes
exactly the concatenation of their contents in input order, with no
padding bytes, no diagnostics, and the run reaches `Out.keep()`. -/
theorem contiguous_sections_concat (secs : List ObjSection)
    (hb : ∀ s ∈ emitted secs, noOverflow s)
    (hchain : List.Chain' contiguous (emitted secs)) :
    (CopyTo secs).output = ((emitted secs).map (fun s => s.contents)).flatten ∧
    (CopyTo secs).diags = [] ∧ (CopyTo secs).kept = true := by
  have hgap : List.Chain' gapOk (emitted secs) :=
    hchain.imp (fun a b hab => contiguous_gapOk hab)
  have h := copyLoop_layout secs initState rfl hb hgap
  refine ⟨?_, h.2.1, h.2.2⟩
  rw [show (CopyTo secs).output = layout (emitted secs) from h.1,
    layout_contiguous _ hchain]

/-- Witness for `contiguous_sections_concat`: `.text` at `0x1000` with
16 bytes followed by `.data` at `0x1010` yields their 24 bytes back to
back. -/
theorem contiguous_sections_concat_witness :
    ((∀ s ∈ emitted [textSec, dataSecAdj], noOverflow s) ∧
      List.Chain' contiguous (emitted [textSec, dataSecAdj])) ∧
    ((CopyTo [textSec, dataSecAdj]).output =
        ((emitted [textSec, dataSecAdj]).map (fun s => s.contents)).flatten ∧
      (CopyTo [textSec, dataSecAdj]).diags = [] ∧
      (CopyTo [textSec, dataSecAdj]).kept = true) :=
  have hchain : List.Chain' contiguous (emitted [textSec, dataSecAdj]) := by
    rw [show emitted [textSec, dataSecAdj] = [textSec, dataSecAdj] from by decide]
    exact chain'_pair (by decide)
  ⟨⟨by decide, hchain⟩,
    contiguous_sections_concat [textSec, dataSecAdj] (by decide) hchain⟩

lemma layoutFrom_adjacent :
    ∀ (l₁ : List ObjSection) (base : Nat) (a b : ObjSection) (l₂ : List ObjSection),
      ∃ pre, layoutFrom base (l₁ ++ a :: b :: l₂) =
        pre ++ a.contents ++
          List.replicate (b.address - (a.address + a.contents.length)) 0 ++
          b.contents ++ layoutFrom (b.address + b.contents.length) l₂ := by
  intro l₁
  induction l₁ with
  | nil =>
    intro base a b l₂
    refine ⟨List.replicate (a.address - base) 0, ?_⟩
    simp [layoutFrom, List.append_assoc]
  | cons c l₁ ih =>
    intro base a b l₂
    obtain ⟨pre, hpre⟩ := ih (c.address + c.contents.length) a b l₂
    refine ⟨List.replicate (c.address - base) 0 ++ c.contents ++ pre, ?_⟩
    simp [layoutFrom, hpre, List.append_assoc]

lemma layout_adjacent (l₁ : List ObjSection) (a b : ObjSection) (l₂ : List ObjSection) :
    ∃ pre, layout (l₁ ++ a :: b :: l₂) =
      pre ++ a.contents ++
        List.replicate (b.address - (a.address + a.contents.length)) 0 ++
        b.contents ++ layoutFrom (b.address + b.contents.length) l₂ := by
  cases l₁ with
  | nil =>
    refine ⟨[], ?_⟩
    simp [layout, layoutFrom, List.append_assoc]
  | cons c l₁ =>
    obtain ⟨pre, hpre⟩ := layoutFrom_adjacent l₁ (c.address + c.contents.length) a b l₂
    refine ⟨c.contents ++ pre, ?_⟩
    simp [layout, hpre, List.append_assoc]

/-- C2: when two adjacent emitted sections leave a gap of `g` bytes with
`0 < g ≤ 65536` (and the whole run stays within the gap ceiling, so the
pair is reached), `CopyTo` writes exactly `g` bytes of value `0x00`
between the first section's contents and the second's. -/
theorem small_gap_zero_filled (secs : List ObjSection)
    (es₁ es₂ : List ObjSection) (a b : ObjSection)
    (hes : emitted secs = es₁ ++ a :: b :: es₂)
    (hb : ∀ s ∈ emitted secs, noOverflow s)
    (hchain : List.Chain' gapOk (emitted secs))
    (hpos : 0 < b.address - (a.address + a.contents.length))
    (hle : b.address - (a.address + a.contents.length) ≤ 65536) :
    ∃ pre post, (CopyTo secs).output =
      pre ++ a.contents ++
        List.replicate (b.address - (a.address + a.contents.length)) 0 ++
        b.contents ++ post := by
  have h := copyLoop_layout secs initState rfl hb hchain
  obtain ⟨pre, hpre⟩ := layout_adjacent es₁ a b es₂
  refine ⟨pre, layoutFrom (b.address + b.contents.length) es₂, ?_⟩
  rw [show (CopyTo secs).output = layout (emitted secs) from h.1, hes, hpre]

/-- Witness for `small_gap_zero_filled`: `.data` ends at `0x1018` and
`.rodata` starts at `0x1020`, so exactly 8 zero bytes are inserted
between them. -/
theorem small_gap_zero_filled_witness :
    (emitted [textSec, dataSecAdj, roSec] = [textSec] ++ dataSecAdj :: roSec :: [] ∧
      (∀ s ∈ emitted [textSec, dataSecAdj, roSec], noOverflow s) ∧
      List.Chain' gapOk (emitted [textSec, dataSecAdj, roSec]) ∧
      0 < roSec.address - (dataSecAdj.address + dataSecAdj.contents.length) ∧
      roSec.address - (dataSecAdj.address + dataSecAdj.contents.length) ≤ 65536) ∧
    ∃ pre post, (CopyTo [textSec, dataSecAdj, roSec]).output =
      pre ++ dataSecAdj.contents ++
        List.replicate
          (roSec.address - (dataSecAdj.address + dataSecAdj.contents.length)) 0 ++
        roSec.contents ++ post :=
  have hchain : List.Chain' gapOk (emitted [textSec, dataSecAdj, roSec]) := by
    rw [show emitted [textSec, dataSecAdj, roSec] = [textSec, dataSecAdj, roSec]
      from by decide]
    exact chain'_triple (by decide) (by decide)
  ⟨⟨by decide, by decide, hchain, by decide, by decide⟩,
    small_gap_zero_filled [textSec, dataSecAdj, roSec] [textSec] [] dataSecAdj roSec
      (by decide) (by decide) hchain (by decide) (by decide)⟩

lemma copyLoop_append (fg : Bool) :
    ∀ (p rest : List ObjSection) (st : CopyState),
      (copyLoop fg p st).kept = true →
      copyLoop fg (p ++ rest) st =
        { output := (copyLoop fg p st).output ++
            (copyLoop fg rest ((copyLoop fg p st).final)).output,
          diags := (copyLoop fg p st).diags ++
            (copyLoop fg rest ((copyLoop fg p st).final)).diags,
          kept := (copyLoop fg rest ((copyLoop fg p st).final)).kept,
          final := (copyLoop fg rest ((copyLoop fg p st).final)).final } := by
  intro p
  induction p with
  | nil =>
    intro rest st _
    simp [copyLoop_nil]
  | cons c p ih =>
    intro rest st hk
    by_cases hc : skipSec c = true
    · rw [copyLoop_skip hc] at hk
      rw [List.cons_append, copyLoop_skip hc, copyLoop_skip hc]
      exact ih rest st hk
    · have hc' : skipSec c = false := by simpa using hc
      by_cases hf : st.fillNextGap = true
      · rcases Nat.lt_trichotomy c.address st.lastAddress with hlt | heq | hgt
        · rw [copyLoop_oo hc' hf hlt fg p] at hk
          simp only [withDiag_kept] at hk
          rw [List.cons_append, copyLoop_oo hc' hf hlt fg (p ++ rest),
            copyLoop_oo hc' hf hlt fg p, ih rest st hk]
          simp [CopyResult.withDiag]
        · rw [copyLoop_eqAddr hc' hf heq fg p] at hk
          simp only [withOutput_kept] at hk
          rw [List.cons_append, copyLoop_eqAddr hc' hf heq fg (p ++ rest),
            copyLoop_eqAddr hc' hf heq fg p, ih rest (nextState fg c st) hk]
          simp [CopyResult.withOutput]
        · by_cases hbig : 1 <<< 16 < c.address - st.lastAddress
          · rw [copyLoop_abort hc' hf hgt hbig fg p] at hk
            simp at hk
          · have hle : c.address - st.lastAddress ≤ 1 <<< 16 := le_of_not_lt hbig
            rw [copyLoop_gapFill hc' hf hgt hle fg p] at hk
            simp only [withOutput_kept] at hk
            rw [List.cons_append, copyLoop_gapFill hc' hf hgt hle fg (p ++ rest),
              copyLoop_gapFill hc' hf hgt hle fg p, ih rest (nextState fg c st) hk]
            simp [CopyResult.withOutput]
      · have hf' : st.fillNextGap = false := by simpa using hf
        rw [copyLoop_noFill hc' hf' fg p] at hk
        simp only [withOutput_kept] at hk
        rw [List.cons_append, copyLoop_noFill hc' hf' fg (p ++ rest),
          copyLoop_noFill hc' hf' fg p, ih rest (nextState fg c st) hk]
        simp [CopyResult.withOutput]

lemma copyLoop_kept_lastAddress :
    ∀ (secs : List ObjSection) (st : CopyState),
      st.fillNextGap = true →
      (∀ s ∈ emitted secs, noOverflow s) →
      (copyLoop true secs st).kept = true →
      (copyLoop true secs st).final.lastAddress =
        st.lastAddress + (copyLoop true secs st).output.length := by
  intro secs
  induction secs with
  | nil =>
    intro st _ _ _
    simp [copyLoop_nil]
  | cons s rest ih =>
    intro st hfill hb hk
    by_cases hs : skipSec s = true
    · rw [emitted_cons_skip hs] at hb
      rw [copyLoop_skip hs] at hk ⊢
      exact ih st hfill hb hk
    · have hs' : skipSec s = false := by simpa using hs
      rw [emitted_cons_emit hs'] at hb
      have hnos : noOverflow s := hb s (List.mem_cons_self s _)
      have hb' : ∀ t ∈ emitted rest, noOverflow t :=
        fun t ht => hb t (List.mem_cons_of_mem s ht)
      rcases Nat.lt_trichotomy s.address st.lastAddress with hlt | heq | hgt
      · rw [copyLoop_oo hs' hfill hlt true rest] at hk ⊢
        simp only [withDiag_kept] at hk
        simp only [withDiag_final, withDiag_output]
        exact ih st hfill hb' hk
      · rw [copyLoop_eqAddr hs' hfill heq true rest, nextState_true s st hnos] at hk ⊢
        simp only [withOutput_kept] at hk
        simp only [withOutput_final, withOutput_output]
        have hrec := ih
          { fillNextGap := true, lastAddress := s.address + s.contents.length,
            lastSectionName := s.name } rfl hb' hk
        rw [hrec]
        simp only [PrintSection, List.length_append]
        omega
      · by_cases hbig : 1 <<< 16 < s.address - st.lastAddress
        · rw [copyLoop_abort hs' hfill hgt hbig true rest] at hk
          simp at hk
        · have hle : s.address - st.lastAddress ≤ 1 <<< 16 := le_of_not_lt hbig
          rw [copyLoop_gapFill hs' hfill hgt hle true rest,
            nextState_true s st hnos] at hk ⊢
          simp only [withOutput_kept] at hk
          simp only [withOutput_final, withOutput_output]
          have hrec := ih
            { fillNextGap := true, lastAddress := s.address + s.contents.length,
              lastSectionName := s.name } rfl hb' hk
          rw [hrec]
          simp only [PrintSection, FillGap, List.length_append, List.length_replicate]
          omega

/-- C6: at every point during a `CopyTo` run — i.e. after any prefix `p`
of the input, provided gap detection has not short-circuited (the prefix
kept the output, out-of-order sections counting as skipped) — the bytes
appended so far cover the addresses from the first emitted section's
start up to `LastAddress`: the first emitted start plus the output
length equals `LastAddress`; and the full run's output extends the
prefix's output byte for byte. -/
theorem output_length_matches_addresses (secs p rest : List ObjSection)
    (hsecs : secs = p ++ rest)
    (hb : ∀ s ∈ emitted p, noOverflow s)
    (hkept : (CopyTo p).kept = true)
    (a : ObjSection) (es' : List ObjSection)
    (hes : emitted p = a :: es') :
    a.address + (CopyTo p).output.length = (CopyTo p).final.lastAddress ∧
    ∃ later, (CopyTo secs).output = (CopyTo p).output ++ later := by
  constructor
  · obtain ⟨tail, htail, heq⟩ := copyLoop_first p initState a es' rfl hes
    have hnos : noOverflow a := hb a (by rw [hes]; exact List.mem_cons_self a es')
    have hb' : ∀ t ∈ emitted tail, noOverflow t := by
      rw [htail]
      intro t ht
      exact hb t (by rw [hes]; exact List.mem_cons_of_mem a ht)
    rw [nextState_true a initState hnos] at heq
    have hk' : (copyLoop true tail
        { fillNextGap := true, lastAddress := a.address + a.contents.length,
          lastSectionName := a.name }).kept = true := by
      have := hkept
      simp only [CopyTo] at this
      rw [heq] at this
      simpa using this
    have hlast := copyLoop_kept_lastAddress tail
      { fillNextGap := true, lastAddress := a.address + a.contents.length,
        lastSectionName := a.name } rfl hb' hk'
    simp only [CopyTo]
    rw [heq]
    simp only [withOutput_output, withOutput_final, List.length_append, PrintSection]
    rw [hlast]
    simp only []
    omega
  · rw [hsecs]
    simp only [CopyTo]
    rw [copyLoop_append true p rest initState hkept]
    exact ⟨(copyLoop true rest ((copyLoop true p initState).final)).output, rfl⟩

/-- Witness for `output_length_matches_addresses`: after the prefix
`[bssLow, .text, .data]` of a run, 24 bytes cover `0x1000`–`0x1018` and
`LastAddress` is `0x1018`. -/
theorem output_length_matches_addresses_witness :
    ([bssLow, textSec, dataSecAdj] =
        [bssLow, textSec, dataSecAdj] ++ ([] : List ObjSection) ∧
      (∀ s ∈ emitted [bssLow, textSec, dataSecAdj], noOverflow s) ∧
      (CopyTo [bssLow, textSec, dataSecAdj]).kept = true ∧
      emitted [bssLow, textSec, dataSecAdj] = textSec :: [dataSecAdj]) ∧
    (textSec.address + (CopyTo [bssLow, textSec, dataSecAdj]).output.length =
        (CopyTo [bssLow, textSec, dataSecAdj]).final.lastAddress ∧
      ∃ later, (CopyTo [bssLow, textSec, dataSecAdj]).output =
        (CopyTo [bssLow, textSec, dataSecAdj]).output ++ later) :=
  ⟨⟨by simp, by decide, by decide, by decide⟩,
    output_length_matches_addresses [bssLow, textSec, dataSecAdj]
      [bssLow, textSec, dataSecAdj] [] (by simp) (by decide) (by decide)
      textSec [dataSecAdj] (by decide)⟩

/-- C3: an emitted-eligible section whose gap from `LastAddress` exceeds
`1 <<< 16` makes the run print the fatal gap diagnostic and return at
once: the remaining sections are never processed (the result does not
depend on them), nothing further is written and `Out.keep()` is never
reached; in particular the spec's scenario `[.text@0x1000+16,
.data@0x20000+8]` ends with the gap error, the output unkept. -/
theorem gap_too_large_aborts (st : CopyState) (s : ObjSection)
    (rest : List ObjSection)
    (hfill : st.fillNextGap = true)
    (hskip : skipSec s = false)
    (hgt : st.lastAddress < s.address)
    (hbig : 1 <<< 16 < s.address - st.lastAddress) :
    copyLoop true (s :: rest) st =
      { output := [], diags := [gapTooLargeMsg], kept := false, final := st } ∧
    (CopyTo gapScenario).kept = false ∧
    (CopyTo gapScenario).diags = [gapTooLargeMsg] ∧
    filePersists (CopyTo gapScenario) = false :=
  ⟨copyLoop_abort hskip hfill hgt hbig true rest, by decide, by decide, by decide⟩

/-- Witness for `gap_too_large_aborts`: after `.text` (ending `0x1010`),
`.data` at `0x20000` leaves a gap of `0x1EFF0 > 65536` and aborts. -/
theorem gap_too_large_aborts_witness :
    (stAfterText.fillNextGap = true ∧ skipSec dataSec = false ∧
      stAfterText.lastAddress < dataSec.address ∧
      1 <<< 16 < dataSec.address - stAfterText.lastAddress) ∧
    (copyLoop true (dataSec :: []) stAfterText =
        { output := [], diags := [gapTooLargeMsg], kept := false,
          final := stAfterText } ∧
      (CopyTo gapScenario).kept = false ∧
      (CopyTo gapScenario).diags = [gapTooLargeMsg] ∧
      filePersists (CopyTo gapScenario) = false) :=
  ⟨⟨rfl, by decide, by decide, by decide⟩,
    gap_too_large_aborts stAfterText dataSec [] rfl (by decide) (by decide)
      (by decide)⟩

/-- C7 counterexample: two oversized-gap runs with different section
names and different gap sizes emit the same single fixed diagnostic, so
the gap error identifies neither the gap size nor the previous and
current section names. -/
theorem gap_error_identifies_nothing_counterexample :
    (CopyTo gapScenario).kept = false ∧
    (CopyTo gapScenarioB).kept = false ∧
    (CopyTo gapScenario).diags = [gapTooLargeMsg] ∧
    (CopyTo gapScenario).diags = (CopyTo gapScenarioB).diags ∧
    textSec.name ≠ alphaSec.name ∧ dataSec.name ≠ betaSec.name ∧
    dataSec.address - (textSec.address + textSec.contents.length) ≠
      betaSec.address - (alphaSec.address + alphaSec.contents.length) :=
  ⟨by decide, by decide, by decide, by decide, by decide, by decide, by decide⟩

/-- C7 amended: when `CopyTo` aborts on an oversized gap, the error it
reports is the fixed message `gapTooLargeMsg`
(`"Gap between sections is too large\n"`), which carries neither the
section names nor the gap size. -/
theorem gap_error_fixed_message (st : CopyState) (s : ObjSection)
    (rest : List ObjSection)
    (hfill : st.fillNextGap = true)
    (hskip : skipSec s = false)
    (hgt : st.lastAddress < s.address)
    (hbig : 1 <<< 16 < s.address - st.lastAddress) :
    (copyLoop true (s :: rest) st).diags = [gapTooLargeMsg] := by
  rw [copyLoop_abort hskip hfill hgt hbig true rest]

/-- Witness for `gap_error_fixed_message`. -/
theorem gap_error_fixed_message_witness :
    (stAfterText.fillNextGap = true ∧ skipSec dataSec = false ∧
      stAfterText.lastAddress < dataSec.address ∧
      1 <<< 16 < dataSec.address - stAfterText.lastAddress) ∧
    (copyLoop true (dataSec :: []) stAfterText).diags = [gapTooLargeMsg] :=
  ⟨⟨rfl, by decide, by decide, by decide⟩,
    gap_error_fixed_message stAfterText dataSec [] rfl (by decide) (by decide)
      (by decide)⟩

/-- C8 counterexample: in the oversized-gap scenario `.text`'s 16 bytes
are written before the abort, yet the early `return` skips `Out.keep()`,
so the partially written file is removed on destruction — the partial
output does not persist. -/
theorem partial_output_not_kept_counterexample :
    (CopyTo gapScenario).output = textSec.contents ∧
    (CopyTo gapScenario).output ≠ [] ∧
    (CopyTo gapScenario).diags = [gapTooLargeMsg] ∧
    filePersists (CopyTo gapScenario) = false :=
  ⟨by decide, by decide, by decide, by decide⟩

/-- C8 amended: whenever `CopyTo` aborts with the fatal gap error,
`Out.keep()` is never called, so the partially written output file is
discarded rather than left in place. -/
theorem gap_abort_discards_output (st : CopyState) (s : ObjSection)
    (rest : List ObjSection)
    (hfill : st.fillNextGap = true)
    (hskip : skipSec s = false)
    (hgt : st.lastAddress < s.address)
    (hbig : 1 <<< 16 < s.address - st.lastAddress) :
    filePersists (copyLoop true (s :: rest) st) = false := by
  rw [copyLoop_abort hskip hfill hgt hbig true rest]
  rfl

/-- Witness for `gap_abort_discards_output`. -/
theorem gap_abort_discards_output_witness :
    (stAfterText.fillNextGap = true ∧ skipSec dataSec = false ∧
      stAfterText.lastAddress < dataSec.address ∧
      1 <<< 16 < dataSec.address - stAfterText.lastAddress) ∧
    filePersists (copyLoop true (dataSec :: []) stAfterText) = false :=
  ⟨⟨rfl, by decide, by decide, by decide⟩,
    gap_abort_discards_output stAfterText dataSec [] rfl (by decide) (by decide)
      (by decide)⟩

end Objcopy
